import Mathlib

/-!
Verification development for the animal-asset tooling of this repository:
`tools/scrape_wikimedia_animals.py` (category walker, filename sanitizer,
metadata filter, per-item download loop) and `tools/select_diverse_assets.py`
(species-key derivation and the four-stage diverse selection with optional
pruning).  Python strings are embedded as Lean `String`s, character-level
operations work on `String.toList`, machine integers are `Nat` (all counters
and limits in the scripts are non-negative), and the filesystem / network are
parameterized by explicit inputs (a directory listing, a category graph, a
per-file success oracle for deletion / download).
-/

/-- Chars-level test that the first list is a leading segment of the second;
this embeds Python's `str.startswith` on the string's characters. -/
def charsPre : List Char → List Char → Bool
  | [], _ => true
  | _ :: _, [] => false
  | c :: cs, d :: ds => c = d && charsPre cs ds

/-- Embeds `s.startswith(pre)` from Python. -/
def strHasPre (pre s : String) : Bool := charsPre pre.toList s.toList

namespace Scraper

/-- Characters kept by `sanitize_filename`'s regular expression
`[^A-Za-z0-9_.-]` (everything outside the class is removed). -/
def keepChar (c : Char) : Bool :=
  (decide ('A' ≤ c) && decide (c ≤ 'Z')) ||
  (decide ('a' ≤ c) && decide (c ≤ 'z')) ||
  (decide ('0' ≤ c) && decide (c ≤ '9')) ||
  c = '_' || c = '.' || c = '-'

/-- Embeds `sanitize_filename` from `tools/scrape_wikimedia_animals.py`:
`name.replace(" ", "_")` followed by `re.sub(r"[^A-Za-z0-9_.-]", "", name)`. -/
def sanitize_filename (name : String) : String :=
  String.mk ((name.toList.map (fun c => if c = ' ' then '_' else c)).filter keepChar)

/-- Embeds the presence/size rejection test of the scraper's main loop:
`if not url or (width < 640 and height < 640): continue`.  `true` means the
item is rejected (the loop `continue`s). -/
def rejectItem (url : String) (width height : Nat) : Bool :=
  (url == "") || (decide (width < 640) && decide (height < 640))

/-- Log lines printed by one iteration of the scraper's download loop:
`print(f"Saved {base}")` on success, `print("Failed ", url, e)` on any
exception (download or filesystem write failure); `ok` abstracts whether the
download+write succeeded. -/
def downloadLogs (ok : Bool) (base url : String) : List String :=
  if ok then ["Saved " ++ base] else ["Failed " ++ url]

/-- State of `fetch_category_files_recursive`'s traversal: the accumulated
file titles (the `files` list) and the set of already-visited categories
(the `visited` set), the latter as a list in visiting order. -/
structure WalkSt where
  files : List String
  visited : List String
deriving DecidableEq, Repr

/-- Embeds the body of `walk`'s pagination/member loop: each member whose
title begins with `File:` is appended, each member whose title begins with
`Category:` triggers the recursive call `recur` (the `walk(title, depth+1)`);
after every append or recursive call the loop stops as soon as `files`
reached `limit`.  The member list is the concatenation of all pages the
`cmcontinue` loop fetches for this category, in order. -/
def walkMembers (limit : Nat) (recur : String → WalkSt → WalkSt) :
    List String → WalkSt → WalkSt
  | [], st => st
  | m :: rest, st =>
    if st.files.length ≥ limit then st
    else if strHasPre "File:" m then
      walkMembers limit recur rest { st with files := st.files ++ [m] }
    else if strHasPre "Category:" m then
      walkMembers limit recur rest (recur m st)
    else
      walkMembers limit recur rest st

/-- Embeds `walk(cat, depth)` of `fetch_category_files_recursive`.  `fuel`
is `max_depth + 1 - depth`, so `fuel = 0` is exactly the Python guard
`depth > max_depth`; the other two guards (`len(files) >= limit`,
`cat in visited`) are checked before marking the node visited and scanning
its members.  `graph` maps a category title to its member titles. -/
def walkNode (graph : String → List String) (limit : Nat) :
    Nat → String → WalkSt → WalkSt
  | 0, _, st => st
  | fuel + 1, cat, st =>
    if st.files.length ≥ limit ∨ cat ∈ st.visited then st
    else walkMembers limit (walkNode graph limit fuel) (graph cat)
      { st with visited := cat :: st.visited }
termination_by structural fuel => fuel

/-- Embeds `fetch_category_files_recursive(category, limit, max_depth)`:
run `walk(category, 0)` from the empty state and return `files[:limit]`. -/
def fetch_category_files_recursive (graph : String → List String)
    (category : String) (limit : Nat) (max_depth : Nat) : List String :=
  (walkNode graph limit (max_depth + 1) category ⟨[], []⟩).files.take limit

end Scraper

namespace Selector

/-- The module-level `ANIMAL_TOKENS` set of `tools/select_diverse_assets.py`. -/
def ANIMAL_TOKENS : List String :=
  ["cat","kitten","dog","puppy","cow","cattle","bull","calf","yak","ox","buffalo","water",
   "goat","sheep","ram","ewe","pig","boar","hog","horse","pony","donkey","mule","llama",
   "alpaca","camel",
   "lion","tiger","leopard","cheetah","jaguar","panther","lynx","puma","cougar","bobcat",
   "fox","wolf","jackal","dingo",
   "bear","panda","koala",
   "monkey","baboon","mandrill","gorilla","chimp","chimpanzee","orangutan","lemur",
   "zebra","giraffe","elephant","rhino","rhinoceros","hippo","hippopotamus","deer","elk",
   "moose","ibex","tahr","chamois","antelope","gazelle","gnu","wildebeest","pronghorn",
   "oryx","addax","kob","topi","kudu","bongo","sable","roan","hartebeest","springbok",
   "kangaroo","wallaby","badger","otter","raccoon","skunk","hyena","weasel","marten",
   "beaver","hare","rabbit","capybara",
   "bird","eagle","hawk","falcon","owl","duck","goose","swan","peacock","parrot","macaw",
   "penguin","puffin","ibis","crane","heron","egret","kingfisher","hoopoe","bulbul",
   "woodpecker","starling","sparrow","finch","tern"]

/-- The module-level `STOPWORDS` set of `tools/select_diverse_assets.py`. -/
def STOPWORDS : List String :=
  ["the","and","or","of","in","on","with","at","to","from","by","for","near","under",
   "over","between","around",
   "male","female","adult","juvenile","young","baby","close","closeup","close-up","head",
   "portrait","nature","wildlife",
   "national","park","reserve","forest","zoo","sanctuary","lake","river","mountain",
   "valley","island","beach","desert",
   "golden","hour","sunset","sunrise","night","day","sky","clouds","grass","tree",
   "flowers","garden",
   "photo","photograph","picture","image","edit","cropped","crop","version","final","copy",
   "jpg","jpeg","png","gif","tif","tiff"]

/-- The `bird_tokens` set defined inside `main` of
`tools/select_diverse_assets.py`. -/
def bird_tokens : List String :=
  ["bird","eagle","hawk","falcon","owl","duck","goose","swan","peacock","parrot","macaw",
   "penguin","puffin","ibis","crane","heron","egret","kingfisher","hoopoe","bulbul",
   "woodpecker","starling","sparrow","finch","tern"]

/-- ASCII letter test: the regular expression class `[a-zA-Z]` whose
complement `TOKEN_SPLIT = re.compile(r"[^a-zA-Z]+")` splits on. -/
def isAsciiLetter (c : Char) : Bool :=
  (decide ('a' ≤ c) && decide (c ≤ 'z')) || (decide ('A' ≤ c) && decide (c ≤ 'Z'))

/-- Chars after the last `/`; embeds `os.path.basename` for POSIX paths. -/
def basenameChars (s : List Char) : List Char :=
  (s.reverse.takeWhile (fun c => !(c = '/'))).reverse

/-- Root part of `os.path.splitext` applied to a basename: cut at the last
dot, except when every character before that dot is itself a dot (then the
name has no extension, e.g. `.bashrc`). -/
def splitextRoot (s : List Char) : List Char :=
  let suf := s.reverse.takeWhile (fun c => !(c = '.'))
  if suf.length = s.length then s
  else
    let root := s.take (s.length - suf.length - 1)
    if root.all (fun c => c = '.') then s else root

/-- Maximal runs of ASCII letters of `s`, accumulating the current run in
`acc` (reversed); embeds `[t for t in TOKEN_SPLIT.split(base) if t]`. -/
def alphaRuns : List Char → List Char → List (List Char)
  | [], acc => if acc.isEmpty then [] else [acc.reverse]
  | c :: cs, acc =>
    if isAsciiLetter c then alphaRuns cs (c :: acc)
    else if acc.isEmpty then alphaRuns cs []
    else acc.reverse :: alphaRuns cs []

/-- Embeds `animal_key_from_name` of `tools/select_diverse_assets.py`:
lowercase the extension-stripped basename, split it into alphabetic tokens,
drop stopwords, return the first token in `ANIMAL_TOKENS`, else the first
remaining token, else the whole lowercased base (ASCII case mapping). -/
def animal_key_from_name (name : String) : String :=
  let base : List Char := (splitextRoot (basenameChars name.toList)).map Char.toLower
  let tokens : List String :=
    ((alphaRuns base []).map String.mk).filter (fun t => decide (t ∉ STOPWORDS))
  match tokens.find? (fun t => decide (t ∈ ANIMAL_TOKENS)) with
  | some t => t
  | none =>
    match tokens with
    | t :: _ => t
    | [] => String.mk base

/-- Selection state of `main`: the ordered `selected` list and the `per`
counters (`defaultdict(int)` read through `per.get(k, 0)`), embedded as an
association list in first-assignment order. -/
structure SelSt where
  selected : List String
  per : List (String × Nat)
deriving DecidableEq, Repr

/-- Embeds `per.get(k, 0)`. -/
def perGet : List (String × Nat) → String → Nat
  | [], _ => 0
  | (k', n) :: rest, k => if k' = k then n else perGet rest k

/-- Embeds `per[k] = per.get(k, 0) + 1`. -/
def perInc : List (String × Nat) → String → List (String × Nat)
  | [], k => [(k, 1)]
  | (k', n) :: rest, k =>
    if k' = k then (k', n + 1) :: rest else (k', n) :: perInc rest k

/-- The `file_keys` list: each file paired with its derived species key. -/
def fileKeysOf (files : List String) : List (String × String) :=
  files.map (fun f => (f, animal_key_from_name f))

/-- The empty selection state both scripts start from. -/
def initSt : SelSt := ⟨[], []⟩

/-- Stage 1 inner scan for one quota entry `(wantKey, wantN)`: walk
`file_keys` in order; stop at the global limit; skip any file whose key has
already reached `per_animal_max`; select a matching unselected file and stop
as soon as the key's counter reaches the quota target. -/
def stage1Scan (limit perMax : Nat) (wantKey : String) (wantN : Nat) :
    List (String × String) → SelSt → SelSt
  | [], st => st
  | (f, k) :: rest, st =>
    if st.selected.length ≥ limit then st
    else if perGet st.per k ≥ perMax then stage1Scan limit perMax wantKey wantN rest st
    else if k = wantKey ∧ f ∉ st.selected then
      if perGet (perInc st.per k) k ≥ wantN then ⟨st.selected ++ [f], perInc st.per k⟩
      else stage1Scan limit perMax wantKey wantN rest ⟨st.selected ++ [f], perInc st.per k⟩
    else stage1Scan limit perMax wantKey wantN rest st

/-- Stage 1 (`# 1) Satisfy explicit quotas first`): run the inner scan for
every quota entry with a positive target, in mapping order. -/
def stage1 (fileKeys : List (String × String)) (limit perMax : Nat) :
    List (String × Nat) → SelSt → SelSt
  | [], st => st
  | (wantKey, wantN) :: rest, st =>
    if wantN = 0 then stage1 fileKeys limit perMax rest st
    else stage1 fileKeys limit perMax rest (stage1Scan limit perMax wantKey wantN fileKeys st)

/-- Stage 2 inner scan: select the first unselected file whose key equals
`tok` (then `break`), otherwise leave the state unchanged. -/
def ensureScan (tok : String) : List (String × String) → SelSt → SelSt
  | [], st => st
  | (f, k) :: rest, st =>
    if k = tok ∧ f ∉ st.selected then ⟨st.selected ++ [f], perInc st.per k⟩
    else ensureScan tok rest st

/-- Stage 2 (`# 2) Ensure certain tokens at least once`): for each ensure
token, stop at the global limit, skip tokens already represented, otherwise
run the inner scan.  Note that the scan never consults `per_animal_max`. -/
def stage2 (fileKeys : List (String × String)) (limit : Nat) :
    List String → SelSt → SelSt
  | [], st => st
  | tok :: rest, st =>
    if st.selected.length ≥ limit then st
    else if perGet st.per tok > 0 then stage2 fileKeys limit rest st
    else stage2 fileKeys limit rest (ensureScan tok fileKeys st)

/-- The bird census of stage 3:
`len([1 for s in selected if animal_key_from_name(s) in bird_tokens])`. -/
def birdCount (selected : List String) : Nat :=
  (selected.filter (fun s => decide (animal_key_from_name s ∈ bird_tokens))).length

/-- Stage 3 scan (`# 3) Fill to birds-min with bird images`): stop at the
global limit or once `birds_min` bird images are selected; select unselected
bird-keyed files whose key is below `per_animal_max`. -/
def stage3Scan (limit perMax birdsMin : Nat) :
    List (String × String) → SelSt → SelSt
  | [], st => st
  | (f, k) :: rest, st =>
    if st.selected.length ≥ limit then st
    else if birdCount st.selected ≥ birdsMin then st
    else if k ∈ bird_tokens ∧ perGet st.per k < perMax ∧ f ∉ st.selected then
      stage3Scan limit perMax birdsMin rest ⟨st.selected ++ [f], perInc st.per k⟩
    else stage3Scan limit perMax birdsMin rest st

/-- Stage 3 runs its scan only when `args.birds_min > 0`. -/
def stage3 (fileKeys : List (String × String)) (limit perMax birdsMin : Nat)
    (st : SelSt) : SelSt :=
  if birdsMin > 0 then stage3Scan limit perMax birdsMin fileKeys st else st

/-- Stage 4 (`# 4) Fill the rest up to limit ...`): scan all files in order,
stop at the global limit, skip keys at `per_animal_max` and files already
selected, select everything else. -/
def stage4 (limit perMax : Nat) : List (String × String) → SelSt → SelSt
  | [], st => st
  | (f, k) :: rest, st =>
    if st.selected.length ≥ limit then st
    else if perGet st.per k ≥ perMax then stage4 limit perMax rest st
    else if f ∈ st.selected then stage4 limit perMax rest st
    else stage4 limit perMax rest ⟨st.selected ++ [f], perInc st.per k⟩

/-- Selection state after stage 1 on a given (already listed and sorted)
file list. -/
def stage1Out (files : List String) (limit perMax : Nat)
    (quotas : List (String × Nat)) : SelSt :=
  stage1 (fileKeysOf files) limit perMax quotas initSt

/-- Selection state after stage 2. -/
def stage2Out (files : List String) (limit perMax : Nat)
    (quotas : List (String × Nat)) (ensureToks : List String) : SelSt :=
  stage2 (fileKeysOf files) limit ensureToks (stage1Out files limit perMax quotas)

/-- Selection state after stage 3. -/
def stage3Out (files : List String) (limit perMax : Nat)
    (quotas : List (String × Nat)) (ensureToks : List String) (birdsMin : Nat) : SelSt :=
  stage3 (fileKeysOf files) limit perMax birdsMin
    (stage2Out files limit perMax quotas ensureToks)

/-- Selection state after all four stages. -/
def selectOut (files : List String) (limit perMax : Nat)
    (quotas : List (String × Nat)) (ensureToks : List String) (birdsMin : Nat) : SelSt :=
  stage4 limit perMax (fileKeysOf files)
    (stage3Out files limit perMax quotas ensureToks birdsMin)

/-- Order used by `files.sort()`: Python compares strings lexicographically
by code point, i.e. lexicographic order on the character list. -/
def fileLe (a b : String) : Prop := a.toList ≤ b.toList

instance : DecidableRel fileLe :=
  fun a b => inferInstanceAs (Decidable (a.toList ≤ b.toList))

instance : IsTotal String fileLe := ⟨fun a b => le_total a.toList b.toList⟩

instance : IsTrans String fileLe :=
  ⟨fun _ _ _ h1 h2 => le_trans (α := List Char) h1 h2⟩

instance : IsAntisymm String fileLe :=
  ⟨fun a b h1 h2 => by
    cases a; cases b
    exact congrArg String.mk (le_antisymm (α := List Char) h1 h2)⟩

/-- Embeds `files = [f for f in os.listdir(args.dir) if not f.startswith('.')]`
followed by `files.sort()` (lexicographic, Python sorts by code point). -/
def visibleFiles (listing : List String) : List String :=
  List.insertionSort fileLe (listing.filter (fun f => !(strHasPre "." f)))

/-- The whole selection run of `main` on a raw directory listing. -/
def selectorRun (listing : List String) (limit perMax : Nat)
    (quotas : List (String × Nat)) (ensureToks : List String) (birdsMin : Nat) : SelSt :=
  selectOut (visibleFiles listing) limit perMax quotas ensureToks birdsMin

/-- Number of selected files whose derived species key is `k`. -/
def keyCount (selected : List String) (k : String) : Nat :=
  (selected.filter (fun f => decide (animal_key_from_name f = k))).length

/-- The files the prune loop attempts to delete: every listed (non-dot,
sorted) file not in the kept selection. -/
def pruneCandidates (files : List String) (keep : List String) : List String :=
  files.filter (fun f => decide (f ∉ keep))

/-- Embeds the prune loop of `main`: for every file not in `keep`, try
`os.remove`; on success count it in `removed`; on failure (`except
Exception: pass`) emit nothing and continue with the next file.  Returns
`(removed, log lines printed by the loop)`;  `removeOk` abstracts whether
the filesystem delete succeeds. -/
def pruneLoop (keep : List String) (removeOk : String → Bool) :
    List String → Nat × List String
  | [] => (0, [])
  | f :: rest =>
    if f ∈ keep then pruneLoop keep removeOk rest
    else if removeOk f then
      ((pruneLoop keep removeOk rest).1 + 1, (pruneLoop keep removeOk rest).2)
    else
      pruneLoop keep removeOk rest

end Selector

namespace Selector

/-- Incrementing a key raises exactly that key's counter by one. -/
theorem perGet_perInc_self (per : List (String × Nat)) (k : String) :
    perGet (perInc per k) k = perGet per k + 1 := by
  induction per with
  | nil => simp [perInc, perGet]
  | cons p rest ih =>
    obtain ⟨k', n⟩ := p
    by_cases h : k' = k
    · simp [perInc, perGet, h]
    · simp [perInc, perGet, h, ih]

/-- Incrementing a key leaves every other key's counter unchanged. -/
theorem perGet_perInc_ne (per : List (String × Nat)) {k k' : String} (h : k ≠ k') :
    perGet (perInc per k) k' = perGet per k' := by
  induction per with
  | nil => simp [perInc, perGet, h]
  | cons p rest ih =>
    obtain ⟨k0, n⟩ := p
    by_cases h0 : k0 = k
    · subst h0; simp [perInc, perGet, h]
    · simp [perInc, perGet, h0, ih]

/-- An increment guarded by `perGet per k < perMax` preserves the bound on
every counter. -/
theorem perInc_le {per : List (String × Nat)} {perMax : Nat} {k : String}
    (hlt : perGet per k < perMax) (h : ∀ k', perGet per k' ≤ perMax) :
    ∀ k', perGet (perInc per k) k' ≤ perMax := by
  intro k'
  by_cases hk : k = k'
  · subst hk; rw [perGet_perInc_self]; omega
  · rw [perGet_perInc_ne _ hk]; exact h k'

/-- Stage 1's inner scan respects the global limit. -/
theorem stage1Scan_len_le (limit perMax : Nat) (wantKey : String) (wantN : Nat) :
    ∀ (fks : List (String × String)) (st : SelSt),
      st.selected.length ≤ limit →
      (stage1Scan limit perMax wantKey wantN fks st).selected.length ≤ limit := by
  intro fks st
  induction fks, st using stage1Scan.induct limit perMax wantKey wantN with
  | case1 st => intro h; simpa [stage1Scan] using h
  | case2 f k rest st hlim => intro h; simpa [stage1Scan, if_pos hlim] using h
  | case3 f k rest st hlim hmax ih =>
    intro h
    simpa only [stage1Scan, if_neg hlim, if_pos hmax] using ih h
  | case4 f k rest st hlim hmax hsel hq =>
    intro h
    simp only [stage1Scan, if_neg hlim, if_neg hmax, if_pos hsel, if_pos hq]
    simp only [List.length_append, List.length_singleton]
    omega
  | case5 f k rest st hlim hmax hsel hq ih =>
    intro h
    simp only [stage1Scan, if_neg hlim, if_neg hmax, if_pos hsel, if_neg hq]
    refine ih ?_
    simp only [List.length_append, List.length_singleton]
    omega
  | case6 f k rest st hlim hmax hsel ih =>
    intro h
    simpa only [stage1Scan, if_neg hlim, if_neg hmax, if_neg hsel] using ih h

/-- Stage 1 respects the global limit. -/
theorem stage1_len_le (fileKeys : List (String × String)) (limit perMax : Nat) :
    ∀ (quotas : List (String × Nat)) (st : SelSt),
      st.selected.length ≤ limit →
      (stage1 fileKeys limit perMax quotas st).selected.length ≤ limit := by
  intro quotas
  induction quotas with
  | nil => intro st h; simpa [stage1] using h
  | cons q rest ih =>
    intro st h
    obtain ⟨wantKey, wantN⟩ := q
    by_cases h0 : wantN = 0
    · simpa only [stage1, if_pos h0] using ih st h
    · simpa only [stage1, if_neg h0] using
        ih _ (stage1Scan_len_le limit perMax wantKey wantN fileKeys st h)

/-- Stage 2's inner scan adds at most one file. -/
theorem ensureScan_len_le (tok : String) :
    ∀ (fks : List (String × String)) (st : SelSt),
      (ensureScan tok fks st).selected.length ≤ st.selected.length + 1 := by
  intro fks
  induction fks with
  | nil => intro st; simp [ensureScan]
  | cons p rest ih =>
    intro st
    obtain ⟨f, k⟩ := p
    by_cases hc : k = tok ∧ f ∉ st.selected
    · simp [ensureScan, if_pos hc]
    · simpa only [ensureScan, if_neg hc] using ih st

/-- Stage 2 respects the global limit. -/
theorem stage2_len_le (fileKeys : List (String × String)) (limit : Nat) :
    ∀ (toks : List String) (st : SelSt),
      st.selected.length ≤ limit →
      (stage2 fileKeys limit toks st).selected.length ≤ limit := by
  intro toks
  induction toks with
  | nil => intro st h; simpa [stage2] using h
  | cons tok rest ih =>
    intro st h
    by_cases h1 : st.selected.length ≥ limit
    · simpa only [stage2, if_pos h1] using h
    · by_cases h2 : perGet st.per tok > 0
      · simpa only [stage2, if_neg h1, if_pos h2] using ih st h
      · have hlen := ensureScan_len_le tok fileKeys st
        simpa only [stage2, if_neg h1, if_neg h2] using ih _ (by omega)

/-- Stage 3's scan respects the global limit. -/
theorem stage3Scan_len_le (limit perMax birdsMin : Nat) :
    ∀ (fks : List (String × String)) (st : SelSt),
      st.selected.length ≤ limit →
      (stage3Scan limit perMax birdsMin fks st).selected.length ≤ limit := by
  intro fks st
  induction fks, st using stage3Scan.induct limit perMax birdsMin with
  | case1 st => intro h; simpa [stage3Scan] using h
  | case2 f k rest st hlim => intro h; simpa [stage3Scan, if_pos hlim] using h
  | case3 f k rest st hlim hbird =>
    intro h
    simpa only [stage3Scan, if_neg hlim, if_pos hbird] using h
  | case4 f k rest st hlim hbird hcond ih =>
    intro h
    simp only [stage3Scan, if_neg hlim, if_neg hbird, if_pos hcond]
    refine ih ?_
    simp only [List.length_append, List.length_singleton]
    omega
  | case5 f k rest st hlim hbird hcond ih =>
    intro h
    simpa only [stage3Scan, if_neg hlim, if_neg hbird, if_neg hcond] using ih h

/-- Stage 3 respects the global limit. -/
theorem stage3_len_le (fileKeys : List (String × String)) (limit perMax birdsMin : Nat)
    (st : SelSt) (h : st.selected.length ≤ limit) :
    (stage3 fileKeys limit perMax birdsMin st).selected.length ≤ limit := by
  unfold stage3
  split
  · exact stage3Scan_len_le limit perMax birdsMin fileKeys st h
  · exact h

/-- Stage 4 respects the global limit. -/
theorem stage4_len_le (limit perMax : Nat) :
    ∀ (fks : List (String × String)) (st : SelSt),
      st.selected.length ≤ limit →
      (stage4 limit perMax fks st).selected.length ≤ limit := by
  intro fks st
  induction fks, st using stage4.induct limit perMax with
  | case1 st => intro h; simpa [stage4] using h
  | case2 f k rest st hlim => intro h; simpa [stage4, if_pos hlim] using h
  | case3 f k rest st hlim hmax ih =>
    intro h
    simpa only [stage4, if_neg hlim, if_pos hmax] using ih h
  | case4 f k rest st hlim hmax hmem ih =>
    intro h
    simpa only [stage4, if_neg hlim, if_neg hmax, if_pos hmem] using ih h
  | case5 f k rest st hlim hmax hmem ih =>
    intro h
    simp only [stage4, if_neg hlim, if_neg hmax, if_neg hmem]
    refine ih ?_
    simp only [List.length_append, List.length_singleton]
    omega

end Selector

namespace Selector

/-- Stage 1's inner scan keeps every per-key counter at or below
`per_animal_max`: the check `per.get(k, 0) >= args.per_animal_max` guards
every single selection of the scan. -/
theorem stage1Scan_per_le (limit perMax : Nat) (wantKey : String) (wantN : Nat) :
    ∀ (fks : List (String × String)) (st : SelSt),
      (∀ k, perGet st.per k ≤ perMax) →
      ∀ k, perGet (stage1Scan limit perMax wantKey wantN fks st).per k ≤ perMax := by
  intro fks st
  induction fks, st using stage1Scan.induct limit perMax wantKey wantN with
  | case1 st => intro h; simpa [stage1Scan] using h
  | case2 f k rest st hlim => intro h; simpa [stage1Scan, if_pos hlim] using h
  | case3 f k rest st hlim hmax ih =>
    intro h
    simpa only [stage1Scan, if_neg hlim, if_pos hmax] using ih h
  | case4 f k rest st hlim hmax hsel hq =>
    intro h k'
    simp only [stage1Scan, if_neg hlim, if_neg hmax, if_pos hsel, if_pos hq]
    exact perInc_le (by omega) h k'
  | case5 f k rest st hlim hmax hsel hq ih =>
    intro h
    simp only [stage1Scan, if_neg hlim, if_neg hmax, if_pos hsel, if_neg hq]
    exact ih (perInc_le (by omega) h)
  | case6 f k rest st hlim hmax hsel ih =>
    intro h
    simpa only [stage1Scan, if_neg hlim, if_neg hmax, if_neg hsel] using ih h

/-- Stage 1 keeps every per-key counter at or below `per_animal_max`. -/
theorem stage1_per_le (fileKeys : List (String × String)) (limit perMax : Nat) :
    ∀ (quotas : List (String × Nat)) (st : SelSt),
      (∀ k, perGet st.per k ≤ perMax) →
      ∀ k, perGet (stage1 fileKeys limit perMax quotas st).per k ≤ perMax := by
  intro quotas
  induction quotas with
  | nil => intro st h; simpa [stage1] using h
  | cons q rest ih =>
    intro st h
    obtain ⟨wantKey, wantN⟩ := q
    by_cases h0 : wantN = 0
    · simpa only [stage1, if_pos h0] using ih st h
    · simpa only [stage1, if_neg h0] using
        ih _ (stage1Scan_per_le limit perMax wantKey wantN fileKeys st h)

/-- Stage 2's inner scan, run on a token whose counter is zero, keeps every
counter at or below `perMax` as long as `1 ≤ perMax`: the one file it may
add brings the token's counter from `0` to `1`. -/
theorem ensureScan_per_le (tok : String) (perMax : Nat) (hperMax : 1 ≤ perMax) :
    ∀ (fks : List (String × String)) (st : SelSt),
      perGet st.per tok = 0 →
      (∀ k, perGet st.per k ≤ perMax) →
      ∀ k, perGet (ensureScan tok fks st).per k ≤ perMax := by
  intro fks
  induction fks with
  | nil => intro st h0 h k; simpa [ensureScan] using h k
  | cons p rest ih =>
    intro st h0 h k
    obtain ⟨f, k0⟩ := p
    by_cases hc : k0 = tok ∧ f ∉ st.selected
    · simp only [ensureScan, if_pos hc]
      have hlt : perGet st.per k0 < perMax := by
        rcases hc with ⟨rfl, -⟩
        omega
      exact perInc_le hlt h k
    · simpa only [ensureScan, if_neg hc] using ih st h0 h k

/-- Stage 2 keeps every per-key counter at or below `perMax` when
`1 ≤ perMax`. -/
theorem stage2_per_le (fileKeys : List (String × String)) (limit perMax : Nat)
    (hperMax : 1 ≤ perMax) :
    ∀ (toks : List String) (st : SelSt),
      (∀ k, perGet st.per k ≤ perMax) →
      ∀ k, perGet (stage2 fileKeys limit toks st).per k ≤ perMax := by
  intro toks
  induction toks with
  | nil => intro st h k; simpa [stage2] using h k
  | cons tok rest ih =>
    intro st h k
    by_cases h1 : st.selected.length ≥ limit
    · simpa only [stage2, if_pos h1] using h k
    · by_cases h2 : perGet st.per tok > 0
      · simpa only [stage2, if_neg h1, if_pos h2] using ih st h k
      · have h0 : perGet st.per tok = 0 := by omega
        simpa only [stage2, if_neg h1, if_neg h2] using
          ih _ (ensureScan_per_le tok perMax hperMax fileKeys st h0 h) k

/-- Stage 3's scan keeps every per-key counter at or below `perMax`. -/
theorem stage3Scan_per_le (limit perMax birdsMin : Nat) :
    ∀ (fks : List (String × String)) (st : SelSt),
      (∀ k, perGet st.per k ≤ perMax) →
      ∀ k, perGet (stage3Scan limit perMax birdsMin fks st).per k ≤ perMax := by
  intro fks st
  induction fks, st using stage3Scan.induct limit perMax birdsMin with
  | case1 st => intro h; simpa [stage3Scan] using h
  | case2 f k rest st hlim => intro h; simpa [stage3Scan, if_pos hlim] using h
  | case3 f k rest st hlim hbird =>
    intro h
    simpa only [stage3Scan, if_neg hlim, if_pos hbird] using h
  | case4 f k rest st hlim hbird hcond ih =>
    intro h
    simp only [stage3Scan, if_neg hlim, if_neg hbird, if_pos hcond]
    exact ih (perInc_le hcond.2.1 h)
  | case5 f k rest st hlim hbird hcond ih =>
    intro h
    simpa only [stage3Scan, if_neg hlim, if_neg hbird, if_neg hcond] using ih h

/-- Stage 3 keeps every per-key counter at or below `perMax`. -/
theorem stage3_per_le (fileKeys : List (String × String)) (limit perMax birdsMin : Nat)
    (st : SelSt) (h : ∀ k, perGet st.per k ≤ perMax) :
    ∀ k, perGet (stage3 fileKeys limit perMax birdsMin st).per k ≤ perMax := by
  unfold stage3
  split
  · exact stage3Scan_per_le limit perMax birdsMin fileKeys st h
  · exact h

/-- Stage 4 keeps every per-key counter at or below `perMax`. -/
theorem stage4_per_le (limit perMax : Nat) :
    ∀ (fks : List (String × String)) (st : SelSt),
      (∀ k, perGet st.per k ≤ perMax) →
      ∀ k, perGet (stage4 limit perMax fks st).per k ≤ perMax := by
  intro fks st
  induction fks, st using stage4.induct limit perMax with
  | case1 st => intro h; simpa [stage4] using h
  | case2 f k rest st hlim => intro h; simpa [stage4, if_pos hlim] using h
  | case3 f k rest st hlim hmax ih =>
    intro h
    simpa only [stage4, if_neg hlim, if_pos hmax] using ih h
  | case4 f k rest st hlim hmax hmem ih =>
    intro h
    simpa only [stage4, if_neg hlim, if_neg hmax, if_pos hmem] using ih h
  | case5 f k rest st hlim hmax hmem ih =>
    intro h
    simp only [stage4, if_neg hlim, if_neg hmax, if_neg hmem]
    exact ih (perInc_le (by omega) h)

end Selector

namespace Selector

/-- Every pair of `file_keys` carries the derived key of its file. -/
theorem fileKeysOf_snd (files : List String) :
    ∀ p ∈ fileKeysOf files, p.2 = animal_key_from_name p.1 := by
  intro p hp
  simp only [fileKeysOf, List.mem_map] at hp
  obtain ⟨f, _, rfl⟩ := hp
  rfl

/-- The first projections of `file_keys` are the files themselves. -/
theorem map_fst_fileKeysOf (files : List String) :
    (fileKeysOf files).map Prod.fst = files := by
  induction files with
  | nil => rfl
  | cons f rest ih => simpa [fileKeysOf] using ih

/-- Stage 1's inner scan only ever selects files drawn from `file_keys`. -/
theorem stage1Scan_sel_sub (limit perMax : Nat) (wantKey : String) (wantN : Nat) :
    ∀ (fks : List (String × String)) (st : SelSt) (f' : String),
      f' ∈ (stage1Scan limit perMax wantKey wantN fks st).selected →
      f' ∈ st.selected ∨ f' ∈ fks.map Prod.fst := by
  intro fks st
  induction fks, st using stage1Scan.induct limit perMax wantKey wantN with
  | case1 st => intro f' h; exact Or.inl (by simpa [stage1Scan] using h)
  | case2 f k rest st hlim =>
    intro f' h
    exact Or.inl (by simpa [stage1Scan, if_pos hlim] using h)
  | case3 f k rest st hlim hmax ih =>
    intro f' h
    simp only [stage1Scan, if_neg hlim, if_pos hmax] at h
    rcases ih f' h with h' | h'
    · exact Or.inl h'
    · exact Or.inr (by simp [h'])
  | case4 f k rest st hlim hmax hsel hq =>
    intro f' h
    simp only [stage1Scan, if_neg hlim, if_neg hmax, if_pos hsel, if_pos hq] at h
    rcases List.mem_append.mp h with h' | h'
    · exact Or.inl h'
    · exact Or.inr (by simp [List.mem_singleton.mp h'])
  | case5 f k rest st hlim hmax hsel hq ih =>
    intro f' h
    simp only [stage1Scan, if_neg hlim, if_neg hmax, if_pos hsel, if_neg hq] at h
    rcases ih f' h with h' | h'
    · rcases List.mem_append.mp h' with h'' | h''
      · exact Or.inl h''
      · exact Or.inr (by simp [List.mem_singleton.mp h''])
    · exact Or.inr (by simp [h'])
  | case6 f k rest st hlim hmax hsel ih =>
    intro f' h
    simp only [stage1Scan, if_neg hlim, if_neg hmax, if_neg hsel] at h
    rcases ih f' h with h' | h'
    · exact Or.inl h'
    · exact Or.inr (by simp [h'])

/-- Stage 1 only ever selects files drawn from `file_keys`. -/
theorem stage1_sel_sub (fileKeys : List (String × String)) (limit perMax : Nat) :
    ∀ (quotas : List (String × Nat)) (st : SelSt) (f' : String),
      f' ∈ (stage1 fileKeys limit perMax quotas st).selected →
      f' ∈ st.selected ∨ f' ∈ fileKeys.map Prod.fst := by
  intro quotas
  induction quotas with
  | nil => intro st f' h; exact Or.inl (by simpa [stage1] using h)
  | cons q rest ih =>
    intro st f' h
    obtain ⟨wantKey, wantN⟩ := q
    by_cases h0 : wantN = 0
    · simp only [stage1, if_pos h0] at h
      exact ih st f' h
    · simp only [stage1, if_neg h0] at h
      rcases ih _ f' h with h' | h'
      · exact stage1Scan_sel_sub limit perMax wantKey wantN fileKeys st f' h'
      · exact Or.inr h'

/-- Stage 2's inner scan only ever selects files drawn from `file_keys`. -/
theorem ensureScan_sel_sub (tok : String) :
    ∀ (fks : List (String × String)) (st : SelSt) (f' : String),
      f' ∈ (ensureScan tok fks st).selected →
      f' ∈ st.selected ∨ f' ∈ fks.map Prod.fst := by
  intro fks
  induction fks with
  | nil => intro st f' h; exact Or.inl (by simpa [ensureScan] using h)
  | cons p rest ih =>
    intro st f' h
    obtain ⟨f, k⟩ := p
    by_cases hc : k = tok ∧ f ∉ st.selected
    · simp only [ensureScan, if_pos hc] at h
      rcases List.mem_append.mp h with h' | h'
      · exact Or.inl h'
      · exact Or.inr (by simp [List.mem_singleton.mp h'])
    · simp only [ensureScan, if_neg hc] at h
      rcases ih st f' h with h' | h'
      · exact Or.inl h'
      · exact Or.inr (by simp [h'])

/-- Stage 2 only ever selects files drawn from `file_keys`. -/
theorem stage2_sel_sub (fileKeys : List (String × String)) (limit : Nat) :
    ∀ (toks : List String) (st : SelSt) (f' : String),
      f' ∈ (stage2 fileKeys limit toks st).selected →
      f' ∈ st.selected ∨ f' ∈ fileKeys.map Prod.fst := by
  intro toks
  induction toks with
  | nil => intro st f' h; exact Or.inl (by simpa [stage2] using h)
  | cons tok rest ih =>
    intro st f' h
    by_cases h1 : st.selected.length ≥ limit
    · simp only [stage2, if_pos h1] at h
      exact Or.inl h
    · by_cases h2 : perGet st.per tok > 0
      · simp only [stage2, if_neg h1, if_pos h2] at h
        exact ih st f' h
      · simp only [stage2, if_neg h1, if_neg h2] at h
        rcases ih _ f' h with h' | h'
        · exact ensureScan_sel_sub tok fileKeys st f' h'
        · exact Or.inr h'

/-- Stage 3's scan only ever selects files drawn from `file_keys`. -/
theorem stage3Scan_sel_sub (limit perMax birdsMin : Nat) :
    ∀ (fks : List (String × String)) (st : SelSt) (f' : String),
      f' ∈ (stage3Scan limit perMax birdsMin fks st).selected →
      f' ∈ st.selected ∨ f' ∈ fks.map Prod.fst := by
  intro fks st
  induction fks, st using stage3Scan.induct limit perMax birdsMin with
  | case1 st => intro f' h; exact Or.inl (by simpa [stage3Scan] using h)
  | case2 f k rest st hlim =>
    intro f' h
    exact Or.inl (by simpa [stage3Scan, if_pos hlim] using h)
  | case3 f k rest st hlim hbird =>
    intro f' h
    exact Or.inl (by simpa only [stage3Scan, if_neg hlim, if_pos hbird] using h)
  | case4 f k rest st hlim hbird hcond ih =>
    intro f' h
    simp only [stage3Scan, if_neg hlim, if_neg hbird, if_pos hcond] at h
    rcases ih f' h with h' | h'
    · rcases List.mem_append.mp h' with h'' | h''
      · exact Or.inl h''
      · exact Or.inr (by simp [List.mem_singleton.mp h''])
    · exact Or.inr (by simp [h'])
  | case5 f k rest st hlim hbird hcond ih =>
    intro f' h
    simp only [stage3Scan, if_neg hlim, if_neg hbird, if_neg hcond] at h
    rcases ih f' h with h' | h'
    · exact Or.inl h'
    · exact Or.inr (by simp [h'])

/-- Stage 3 only ever selects files drawn from `file_keys`. -/
theorem stage3_sel_sub (fileKeys : List (String × String)) (limit perMax birdsMin : Nat)
    (st : SelSt) (f' : String)
    (h : f' ∈ (stage3 fileKeys limit perMax birdsMin st).selected) :
    f' ∈ st.selected ∨ f' ∈ fileKeys.map Prod.fst := by
  unfold stage3 at h
  split at h
  · exact stage3Scan_sel_sub limit perMax birdsMin fileKeys st f' h
  · exact Or.inl h

/-- Stage 4 only ever selects files drawn from `file_keys`. -/
theorem stage4_sel_sub (limit perMax : Nat) :
    ∀ (fks : List (String × String)) (st : SelSt) (f' : String),
      f' ∈ (stage4 limit perMax fks st).selected →
      f' ∈ st.selected ∨ f' ∈ fks.map Prod.fst := by
  intro fks st
  induction fks, st using stage4.induct limit perMax with
  | case1 st => intro f' h; exact Or.inl (by simpa [stage4] using h)
  | case2 f k rest st hlim =>
    intro f' h
    exact Or.inl (by simpa [stage4, if_pos hlim] using h)
  | case3 f k rest st hlim hmax ih =>
    intro f' h
    simp only [stage4, if_neg hlim, if_pos hmax] at h
    rcases ih f' h with h' | h'
    · exact Or.inl h'
    · exact Or.inr (by simp [h'])
  | case4 f k rest st hlim hmax hmem ih =>
    intro f' h
    simp only [stage4, if_neg hlim, if_neg hmax, if_pos hmem] at h
    rcases ih f' h with h' | h'
    · exact Or.inl h'
    · exact Or.inr (by simp [h'])
  | case5 f k rest st hlim hmax hmem ih =>
    intro f' h
    simp only [stage4, if_neg hlim, if_neg hmax, if_neg hmem] at h
    rcases ih f' h with h' | h'
    · rcases List.mem_append.mp h' with h'' | h''
      · exact Or.inl h''
      · exact Or.inr (by simp [List.mem_singleton.mp h''])
    · exact Or.inr (by simp [h'])

/-- Every file selected by the four stages comes from the scanned list. -/
theorem selectOut_sel_sub (files : List String) (limit perMax : Nat)
    (quotas : List (String × Nat)) (ensureToks : List String) (birdsMin : Nat) :
    ∀ f, f ∈ (selectOut files limit perMax quotas ensureToks birdsMin).selected →
      f ∈ files := by
  intro f h
  have hmap := map_fst_fileKeysOf files
  rcases stage4_sel_sub limit perMax (fileKeysOf files) _ f h with h | h
  · rcases stage3_sel_sub (fileKeysOf files) limit perMax birdsMin _ f h with h | h
    · rcases stage2_sel_sub (fileKeysOf files) limit ensureToks _ f h with h | h
      · rcases stage1_sel_sub (fileKeysOf files) limit perMax quotas initSt f h with h | h
        · simp [initSt] at h
        · rwa [hmap] at h
      · rwa [hmap] at h
    · rwa [hmap] at h
  · rwa [hmap] at h

end Selector

namespace Selector

/-- Appending one file adds its key (and only its key) to the key census. -/
theorem keyCount_append (sel : List String) (f k : String) :
    keyCount (sel ++ [f]) k =
      keyCount sel k + (if animal_key_from_name f = k then 1 else 0) := by
  by_cases hp : animal_key_from_name f = k
  · simp [keyCount, List.filter_append, hp]
  · simp [keyCount, List.filter_append, hp]

/-- One guarded selection step keeps the per-counters equal to the key
census of the selected list. -/
theorem kc_step {st : SelSt} {f k : String}
    (hkey : k = animal_key_from_name f)
    (h : ∀ k', perGet st.per k' = keyCount st.selected k') :
    ∀ k', perGet (perInc st.per k) k' = keyCount (st.selected ++ [f]) k' := by
  intro k'
  rw [keyCount_append]
  by_cases hk : k = k'
  · subst hk
    rw [perGet_perInc_self, h k, if_pos hkey.symm]
  · rw [perGet_perInc_ne _ hk, h k', if_neg (fun hh => hk (hkey.trans hh)), Nat.add_zero]

/-- Through stage 1's inner scan the per-counters stay equal to the key
census of the selected list. -/
theorem stage1Scan_kc (limit perMax : Nat) (wantKey : String) (wantN : Nat) :
    ∀ (fks : List (String × String)) (st : SelSt),
      (∀ p ∈ fks, p.2 = animal_key_from_name p.1) →
      (∀ k, perGet st.per k = keyCount st.selected k) →
      ∀ k, perGet (stage1Scan limit perMax wantKey wantN fks st).per k
        = keyCount (stage1Scan limit perMax wantKey wantN fks st).selected k := by
  intro fks st
  induction fks, st using stage1Scan.induct limit perMax wantKey wantN with
  | case1 st => intro _ h k; simpa [stage1Scan] using h k
  | case2 f k rest st hlim => intro _ h k'; simpa [stage1Scan, if_pos hlim] using h k'
  | case3 f k rest st hlim hmax ih =>
    intro hf h k'
    simp only [stage1Scan, if_neg hlim, if_pos hmax]
    exact ih (fun p hp => hf p (List.mem_cons_of_mem _ hp)) h k'
  | case4 f k rest st hlim hmax hsel hq =>
    intro hf h k'
    simp only [stage1Scan, if_neg hlim, if_neg hmax, if_pos hsel, if_pos hq]
    exact kc_step (hf (f, k) (List.mem_cons_self _ _)) h k'
  | case5 f k rest st hlim hmax hsel hq ih =>
    intro hf h k'
    simp only [stage1Scan, if_neg hlim, if_neg hmax, if_pos hsel, if_neg hq]
    exact ih (fun p hp => hf p (List.mem_cons_of_mem _ hp))
      (kc_step (hf (f, k) (List.mem_cons_self _ _)) h) k'
  | case6 f k rest st hlim hmax hsel ih =>
    intro hf h k'
    simp only [stage1Scan, if_neg hlim, if_neg hmax, if_neg hsel]
    exact ih (fun p hp => hf p (List.mem_cons_of_mem _ hp)) h k'

/-- Through stage 1 the per-counters stay equal to the key census of the
selected list. -/
theorem stage1_kc (fileKeys : List (String × String)) (limit perMax : Nat)
    (hf : ∀ p ∈ fileKeys, p.2 = animal_key_from_name p.1) :
    ∀ (quotas : List (String × Nat)) (st : SelSt),
      (∀ k, perGet st.per k = keyCount st.selected k) →
      ∀ k, perGet (stage1 fileKeys limit perMax quotas st).per k
        = keyCount (stage1 fileKeys limit perMax quotas st).selected k := by
  intro quotas
  induction quotas with
  | nil => intro st h k; simpa [stage1] using h k
  | cons q rest ih =>
    intro st h
    obtain ⟨wantKey, wantN⟩ := q
    by_cases h0 : wantN = 0
    · simpa only [stage1, if_pos h0] using ih st h
    · simpa only [stage1, if_neg h0] using
        ih _ (stage1Scan_kc limit perMax wantKey wantN fileKeys st hf h)

/-- After stage 1, at most `perMax` selected files carry any given key,
whatever the configured quotas are. -/
theorem stage1Out_keyCount_le (files : List String) (limit perMax : Nat)
    (quotas : List (String × Nat)) (k : String) :
    keyCount (stage1Out files limit perMax quotas).selected k ≤ perMax := by
  have hinit : ∀ k', perGet initSt.per k' = keyCount initSt.selected k' := by
    intro k'; simp [initSt, perGet, keyCount]
  have hkc := stage1_kc (fileKeysOf files) limit perMax (fileKeysOf_snd files)
    quotas initSt hinit k
  have hper := stage1_per_le (fileKeysOf files) limit perMax quotas initSt
    (fun k' => by simp [initSt, perGet]) k
  rw [stage1Out, ← hkc]
  exact hper

end Selector

namespace Scraper

/-- The member loop preserves `Nodup` of the visited set, provided the
recursive call does. -/
theorem walkMembers_nodup (limit : Nat) (recur : String → WalkSt → WalkSt)
    (hrec : ∀ c st, st.visited.Nodup → (recur c st).visited.Nodup) :
    ∀ (ms : List String) (st : WalkSt), st.visited.Nodup →
      (walkMembers limit recur ms st).visited.Nodup := by
  intro ms
  induction ms with
  | nil => intro st h; simpa [walkMembers] using h
  | cons m rest ih =>
    intro st h
    by_cases h1 : st.files.length ≥ limit
    · simpa only [walkMembers, if_pos h1] using h
    · by_cases h2 : strHasPre "File:" m = true
      · simpa only [walkMembers, if_neg h1, h2, if_pos] using
          ih { st with files := st.files ++ [m] } h
      · by_cases h3 : strHasPre "Category:" m = true
        · simpa only [walkMembers, if_neg h1, h2, h3, if_pos, Bool.false_eq_true,
            if_false] using ih _ (hrec m st h)
        · simpa only [walkMembers, if_neg h1, h2, h3, Bool.false_eq_true,
            if_false] using ih _ h

/-- A category already in the visited set is never re-entered: the walk
returns its state unchanged. -/
theorem walkNode_visited_stop (graph : String → List String) (limit : Nat) :
    ∀ (fuel : Nat) (cat : String) (st : WalkSt), cat ∈ st.visited →
      walkNode graph limit fuel cat st = st := by
  intro fuel cat st h
  cases fuel with
  | zero => rfl
  | succ fuel =>
    simp only [walkNode]
    rw [if_pos (Or.inr h)]

/-- The walk never records a category twice in the visited set. -/
theorem walkNode_nodup (graph : String → List String) (limit : Nat) :
    ∀ (fuel : Nat) (cat : String) (st : WalkSt), st.visited.Nodup →
      (walkNode graph limit fuel cat st).visited.Nodup := by
  intro fuel
  induction fuel with
  | zero => intro cat st h; simpa [walkNode] using h
  | succ fuel ih =>
    intro cat st h
    by_cases h1 : st.files.length ≥ limit ∨ cat ∈ st.visited
    · simp only [walkNode]
      rw [if_pos h1]
      exact h
    · have hcat : cat ∉ st.visited := fun hm => h1 (Or.inr hm)
      simp only [walkNode]
      rw [if_neg h1]
      exact walkMembers_nodup limit _ (fun c st' h' => ih c st' h') (graph cat)
        _ (List.nodup_cons.mpr ⟨hcat, h⟩)

/-- Every character of a sanitized name lies in `[A-Za-z0-9_.-]`. -/
theorem keepChar_of_mem_sanitize (s : String) :
    ∀ c ∈ (sanitize_filename s).toList, keepChar c = true := by
  intro c hc
  exact List.of_mem_filter hc

/-- Rebuilding a string from its characters is the identity. -/
theorem mk_toList (s : String) : String.mk s.toList = s := by
  cases s
  rfl

end Scraper

namespace Scraper

/-- Sanitization is idempotent: its output has no spaces and only kept
characters, so the replace pass and the filter pass both fix it. -/
theorem sanitize_idem (s : String) :
    sanitize_filename (sanitize_filename s) = sanitize_filename s := by
  have hall : ∀ c ∈ (sanitize_filename s).toList, keepChar c = true :=
    keepChar_of_mem_sanitize s
  have hmap : (sanitize_filename s).toList.map (fun c => if c = ' ' then '_' else c)
      = (sanitize_filename s).toList := by
    have hfix : ∀ c ∈ (sanitize_filename s).toList,
        (if c = ' ' then '_' else c) = id c := by
      intro c hc
      by_cases hsp : c = ' '
      · subst hsp
        exact absurd (hall _ hc) (by decide)
      · simp [hsp]
    rw [List.map_congr_left hfix, List.map_id]
  have hfil : ((sanitize_filename s).toList).filter keepChar
      = (sanitize_filename s).toList := List.filter_eq_self.mpr hall
  show String.mk (((sanitize_filename s).toList.map
      (fun c => if c = ' ' then '_' else c)).filter keepChar) = sanitize_filename s
  rw [hmap, hfil, mk_toList]

/-- For an item with a non-empty URL, the main-loop rejection test holds
exactly when both dimensions are below 640. -/
theorem rejectItem_iff (url : String) (w h : Nat) (hu : url ≠ "") :
    (rejectItem url w h = true) ↔ (w < 640 ∧ h < 640) := by
  simp [rejectItem, hu]

/-- The walker returns at most `limit` items: the result is truncated by
`files[:limit]`. -/
theorem fetch_len_le (graph : String → List String) (category : String)
    (limit max_depth : Nat) :
    (fetch_category_files_recursive graph category limit max_depth).length ≤ limit := by
  simp only [fetch_category_files_recursive, List.length_take]
  exact min_le_left _ _

end Scraper

namespace Selector

/-- The prune loop prints no log line at all, whatever succeeds or fails. -/
theorem pruneLoop_logs (keep : List String) (removeOk : String → Bool) :
    ∀ files : List String, (pruneLoop keep removeOk files).2 = [] := by
  intro files
  induction files with
  | nil => rfl
  | cons f rest ih =>
    by_cases h1 : f ∈ keep
    · simpa only [pruneLoop, if_pos h1] using ih
    · cases h2 : removeOk f <;>
        simpa only [pruneLoop, if_neg h1, h2, Bool.false_eq_true, if_false, if_true] using ih

/-- The prune loop's `removed` count: one per non-kept file whose delete
succeeds; a failed delete never stops the remaining files from being
processed. -/
theorem pruneLoop_count (keep : List String) (removeOk : String → Bool) :
    ∀ files : List String,
      (pruneLoop keep removeOk files).1 =
        (files.filter (fun f => decide (f ∉ keep) && removeOk f)).length := by
  intro files
  induction files with
  | nil => rfl
  | cons f rest ih =>
    by_cases h1 : f ∈ keep
    · simp [pruneLoop, h1, ih]
    · cases h2 : removeOk f <;> simp [pruneLoop, h1, h2, ih]

/-- Two listings with the same files (in any order) produce the same sorted
visible-file list. -/
theorem visibleFiles_perm_eq {l1 l2 : List String} (hperm : l1.Perm l2) :
    visibleFiles l1 = visibleFiles l2 := by
  apply List.eq_of_perm_of_sorted (r := fileLe)
  · exact (List.perm_insertionSort fileLe _).trans
      ((hperm.filter _).trans (List.perm_insertionSort fileLe _).symm)
  · exact List.sorted_insertionSort fileLe _
  · exact List.sorted_insertionSort fileLe _

/-- No visible file begins with a dot. -/
theorem visibleFiles_no_dot (listing : List String) :
    ∀ f ∈ visibleFiles listing, strHasPre "." f = false := by
  intro f hf
  have hmem : f ∈ listing.filter (fun f => !(strHasPre "." f)) :=
    (List.perm_insertionSort fileLe _).mem_iff.mp hf
  have hb := List.of_mem_filter hmem
  simpa using hb

end Selector

/-- Sanity check: the spec's quota scenario.  Files `lion_a, lion_b, lion_c,
tiger_a` with `perKeyMax = 2` and quota `lion=2` select exactly two lion
files, and the tiger file in stage 4. -/
theorem quota_scenario_check :
    Selector.selectorRun ["lion_a.jpg", "lion_b.jpg", "lion_c.jpg", "tiger_a.jpg"] 80 2
      [("lion", 2)] [] 0 =
    ⟨["lion_a.jpg", "lion_b.jpg", "tiger_a.jpg"], [("lion", 2), ("tiger", 1)]⟩ := by
  decide

/-- Sanity check: the walker on a two-node cyclic graph collects files in
discovery order (depth-first, eager recursion) and survives the cycle. -/
theorem walker_cycle_check :
    Scraper.fetch_category_files_recursive
      (fun c => if c = "Category:A" then ["File:x", "Category:B", "File:y"]
                else if c = "Category:B" then ["File:z", "Category:A"] else [])
      "Category:A" 10 3 = ["File:x", "File:z", "File:y"] := by
  decide

/-- Sanity check: `max_depth = 0` visits only the root (no subcategory
descent). -/
theorem walker_depth_zero_check :
    Scraper.fetch_category_files_recursive
      (fun c => if c = "Category:A" then ["File:x", "Category:B", "File:y"]
                else if c = "Category:B" then ["File:z", "Category:A"] else [])
      "Category:A" 10 0 = ["File:x", "File:y"] := by
  decide

/-- Sanity check: the spec's sanitization example. -/
theorem sanitize_example_check :
    Scraper.sanitize_filename "Lion (cropped).JPG" = "Lion_cropped.JPG" := by
  decide

/-- C1 counterexample: the claim asserts some configuration with a quota
above `perKeyMax` makes stage 1 select more than `perKeyMax` files of that
key.  No such configuration exists: the per-key-max guard sits inside
stage 1's inner scan and is re-checked before every single selection. -/
theorem C1_counterexample :
    ¬ ∃ (files : List String) (limit perMax : Nat) (quotas : List (String × Nat))
        (k : String) (n : Nat),
      (k, n) ∈ quotas ∧ perMax < n ∧
        perMax < Selector.keyCount
          (Selector.stage1Out files limit perMax quotas).selected k := by
  rintro ⟨files, limit, perMax, quotas, k, n, -, -, hgt⟩
  exact absurd (Selector.stage1Out_keyCount_le files limit perMax quotas k) (by omega)

/-- C1 (amended): even when the configured quota for `k` is larger than
`perKeyMax`, stage 1 selects at most `perKeyMax` files whose species key is
`k`: the per-key-max check is applied at every step of stage 1's inner scan,
so the quota is effectively clamped to `perKeyMax`. -/
theorem C1_amended_stage1_capped (files : List String) (limit perMax : Nat)
    (quotas : List (String × Nat)) (k : String) (n : Nat)
    (_hq : (k, n) ∈ quotas) (_hn : perMax < n) :
    Selector.keyCount (Selector.stage1Out files limit perMax quotas).selected k
      ≤ perMax :=
  Selector.stage1Out_keyCount_le files limit perMax quotas k

/-- C1 witness: quota `lion=3` with `perKeyMax = 2` over three lion files. -/
theorem C1_witness :
    ((("lion" : String), (3 : Nat)) ∈ [(("lion" : String), (3 : Nat))] ∧ 2 < 3) ∧
    Selector.keyCount
      (Selector.stage1Out ["lion_a.jpg", "lion_b.jpg", "lion_c.jpg"] 80 2
        [("lion", 3)]).selected "lion" ≤ 2 :=
  ⟨⟨by decide, by decide⟩,
   C1_amended_stage1_capped ["lion_a.jpg", "lion_b.jpg", "lion_c.jpg"] 80 2
     [("lion", 3)] "lion" 3 (by decide) (by decide)⟩

/-- C2 counterexample: with `perKeyMax = 0` and `ensure = [lion]` over a
single lion file, stage 2 pushes the lion counter to `1 > perKeyMax` and it
stays there through stages 3 and 4 — so a stage other than the quota stage
pushes a key's count above `perKeyMax`. -/
theorem C2_counterexample :
    Selector.perGet (Selector.stage2Out ["lion_a.jpg"] 80 0 [] ["lion"]).per "lion" = 1 ∧
    Selector.perGet (Selector.stage3Out ["lion_a.jpg"] 80 0 [] ["lion"] 0).per "lion" = 1 ∧
    Selector.perGet (Selector.selectOut ["lion_a.jpg"] 80 0 [] ["lion"] 0).per "lion" = 1 := by
  decide

/-- C2 (amended): provided `perKeyMax ≥ 1`, after stages 2, 3 and 4 every
species key's selected count is at most `perKeyMax`.  (Stage 1 also never
pushes a count above `perKeyMax`; the one exception in the code is stage 2,
which never consults `perKeyMax` and can push a count to 1 when
`perKeyMax = 0`.) -/
theorem C2_amended_per_key_max (files : List String) (limit perMax : Nat)
    (quotas : List (String × Nat)) (ensureToks : List String) (birdsMin : Nat)
    (hperMax : 1 ≤ perMax) :
    ∀ k,
      Selector.perGet (Selector.stage2Out files limit perMax quotas ensureToks).per k
        ≤ perMax ∧
      Selector.perGet
          (Selector.stage3Out files limit perMax quotas ensureToks birdsMin).per k
        ≤ perMax ∧
      Selector.perGet
          (Selector.selectOut files limit perMax quotas ensureToks birdsMin).per k
        ≤ perMax := by
  intro k
  have h0 : ∀ k', Selector.perGet Selector.initSt.per k' ≤ perMax := by
    intro k'
    simp [Selector.initSt, Selector.perGet]
  have h1 := Selector.stage1_per_le (Selector.fileKeysOf files) limit perMax quotas
    Selector.initSt h0
  have h2 := Selector.stage2_per_le (Selector.fileKeysOf files) limit perMax hperMax
    ensureToks _ h1
  have h3 := Selector.stage3_per_le (Selector.fileKeysOf files) limit perMax birdsMin _ h2
  have h4 := Selector.stage4_per_le limit perMax (Selector.fileKeysOf files) _ h3
  exact ⟨h2 k, h3 k, h4 k⟩

/-- C2 witness: the default `perKeyMax = 3` run over one lion file. -/
theorem C2_witness :
    (1 : Nat) ≤ 3 ∧
    Selector.perGet (Selector.selectOut ["lion_a.jpg"] 80 3 [] ["lion"] 0).per "lion" ≤ 3 :=
  ⟨by decide,
   (C2_amended_per_key_max ["lion_a.jpg"] 80 3 [] ["lion"] 0 (by decide) "lion").2.2⟩

/-- C3 counterexample: a prune run in which the delete of the sole non-kept
file `a.jpg` fails emits no log line at all (`except Exception: pass`),
refuting the claim that a filesystem delete failure during pruning is logged
per file; the second conjunct shows the same file is a genuine delete
candidate (it is removed when the delete succeeds — again with no log). -/
theorem C3_counterexample :
    Selector.pruneLoop [] (fun _ => false) ["a.jpg"] = (0, []) ∧
    Selector.pruneLoop [] (fun _ => true) ["a.jpg"] = (1, []) := by
  decide

/-- C3 (amended): a failed single-image download is logged with a line
naming the URL and processing continues, but a filesystem delete failure
during pruning is silently swallowed — the prune loop emits no log line at
all; it does continue, removing every remaining non-kept file whose delete
succeeds. -/
theorem C3_amended_logging :
    ∀ (keep : List String) (removeOk : String → Bool) (files : List String)
      (base url : String),
      (Selector.pruneLoop keep removeOk files).2 = [] ∧
      (Selector.pruneLoop keep removeOk files).1 =
        (files.filter (fun f => decide (f ∉ keep) && removeOk f)).length ∧
      Scraper.downloadLogs false base url = ["Failed " ++ url] :=
  fun keep removeOk files _base _url =>
    ⟨Selector.pruneLoop_logs keep removeOk files,
     Selector.pruneLoop_count keep removeOk files,
     rfl⟩

/-- C4: at every stage of the four-stage selection, the number of selected
filenames never exceeds the configured global limit. -/
theorem C4_global_limit :
    ∀ (files : List String) (limit perMax : Nat) (quotas : List (String × Nat))
      (ensureToks : List String) (birdsMin : Nat),
      (Selector.stage1Out files limit perMax quotas).selected.length ≤ limit ∧
      (Selector.stage2Out files limit perMax quotas ensureToks).selected.length ≤ limit ∧
      (Selector.stage3Out files limit perMax quotas ensureToks birdsMin).selected.length
        ≤ limit ∧
      (Selector.selectOut files limit perMax quotas ensureToks birdsMin).selected.length
        ≤ limit := by
  intro files limit perMax quotas ensureToks birdsMin
  have h0 : (Selector.initSt).selected.length ≤ limit := by
    simp [Selector.initSt]
  have h1 := Selector.stage1_len_le (Selector.fileKeysOf files) limit perMax quotas
    Selector.initSt h0
  have h2 := Selector.stage2_len_le (Selector.fileKeysOf files) limit ensureToks _ h1
  have h3 := Selector.stage3_len_le (Selector.fileKeysOf files) limit perMax birdsMin _ h2
  have h4 := Selector.stage4_len_le limit perMax (Selector.fileKeysOf files) _ h3
  exact ⟨h1, h2, h3, h4⟩

/-- C5: for every category graph, root, limit and depth bound, the walker
returns at most `limit` items. -/
theorem C5_walker_limit :
    ∀ (graph : String → List String) (category : String) (limit max_depth : Nat),
      (Scraper.fetch_category_files_recursive graph category limit max_depth).length
        ≤ limit :=
  fun graph category limit max_depth =>
    Scraper.fetch_len_le graph category limit max_depth

/-- C6: the walker visits each category at most once globally: a category
already in the visited set is returned from immediately (no re-entry, which
is what breaks cycles and diamond re-visits), the visited set never acquires
a duplicate, and the visited set of a full run from the root is duplicate-
free.  Termination itself is witnessed by `walkNode` being a total function
(its recursion is bounded by the depth guard `depth > max_depth`). -/
theorem C6_walker_visits_once :
    ∀ (graph : String → List String) (limit maxDepth : Nat) (category : String)
      (fuel : Nat) (cat : String) (st : Scraper.WalkSt),
      (cat ∈ st.visited → Scraper.walkNode graph limit fuel cat st = st) ∧
      (st.visited.Nodup → (Scraper.walkNode graph limit fuel cat st).visited.Nodup) ∧
      (Scraper.walkNode graph limit (maxDepth + 1) category ⟨[], []⟩).visited.Nodup :=
  fun graph limit maxDepth category fuel cat st =>
    ⟨Scraper.walkNode_visited_stop graph limit fuel cat st,
     Scraper.walkNode_nodup graph limit fuel cat st,
     Scraper.walkNode_nodup graph limit (maxDepth + 1) category _ List.nodup_nil⟩

/-- C6 witness: re-entering the already-visited `Category:A` leaves the
state unchanged, and the visited set stays duplicate-free. -/
theorem C6_witness :
    ("Category:A" ∈ (⟨[], ["Category:A"]⟩ : Scraper.WalkSt).visited ∧
      Scraper.walkNode (fun _ => []) 5 1 "Category:A" ⟨[], ["Category:A"]⟩
        = ⟨[], ["Category:A"]⟩) ∧
    ((⟨[], ["Category:A"]⟩ : Scraper.WalkSt).visited.Nodup ∧
      (Scraper.walkNode (fun _ => []) 5 1 "Category:A"
        ⟨[], ["Category:A"]⟩).visited.Nodup) :=
  ⟨⟨by decide,
    (C6_walker_visits_once (fun _ => []) 5 0 "Category:A" 1 "Category:A"
      ⟨[], ["Category:A"]⟩).1 (by decide)⟩,
   ⟨by decide,
    (C6_walker_visits_once (fun _ => []) 5 0 "Category:A" 1 "Category:A"
      ⟨[], ["Category:A"]⟩).2.1 (by decide)⟩⟩

/-- C7: for every item with a non-empty URL, the size filter rejects it
exactly when both `width < 640` and `height < 640` (OR-pass / AND-reject);
in particular `500×700` passes and `500×500` fails. -/
theorem C7_size_filter :
    (∀ (url : String) (w h : Nat), url ≠ "" →
      ((Scraper.rejectItem url w h = true) ↔ (w < 640 ∧ h < 640))) ∧
    Scraper.rejectItem "u" 500 700 = false ∧
    Scraper.rejectItem "u" 500 500 = true :=
  ⟨fun url w h hu => Scraper.rejectItem_iff url w h hu, by decide, by decide⟩

/-- C7 witness: the filter evaluated at `500×500` and `500×700` with a
non-empty URL. -/
theorem C7_witness :
    ("u" ≠ "" ∧ ((Scraper.rejectItem "u" 500 500 = true) ↔ (500 < 640 ∧ 500 < 640))) ∧
    ("u" ≠ "" ∧ ((Scraper.rejectItem "u" 500 700 = true) ↔ (500 < 640 ∧ 700 < 640))) :=
  ⟨⟨by decide, C7_size_filter.1 "u" 500 500 (by decide)⟩,
   ⟨by decide, C7_size_filter.1 "u" 500 700 (by decide)⟩⟩

/-- C8: the selector is deterministic: two runs over the same set of files
(any listing order, as `os.listdir` gives none) with the same flags produce
identical ordered selections and identical per-key counts, because the
listing is sorted lexicographically before the scan. -/
theorem C8_selector_deterministic :
    ∀ (l1 l2 : List String) (limit perMax : Nat) (quotas : List (String × Nat))
      (ensureToks : List String) (birdsMin : Nat),
      l1.Perm l2 →
      Selector.selectorRun l1 limit perMax quotas ensureToks birdsMin
        = Selector.selectorRun l2 limit perMax quotas ensureToks birdsMin := by
  intro l1 l2 limit perMax quotas ensureToks birdsMin hperm
  simp only [Selector.selectorRun, Selector.visibleFiles_perm_eq hperm]

/-- C8 witness: two listing orders of the same two files. -/
theorem C8_witness :
    (["b.jpg", "a.jpg"] : List String).Perm ["a.jpg", "b.jpg"] ∧
    Selector.selectorRun ["b.jpg", "a.jpg"] 80 3 [] [] 0
      = Selector.selectorRun ["a.jpg", "b.jpg"] 80 3 [] [] 0 :=
  ⟨by decide, C8_selector_deterministic ["b.jpg", "a.jpg"] ["a.jpg", "b.jpg"] 80 3 [] [] 0
    (by decide)⟩

/-- C9: a dot-file is never scanned, never selected and never deleted: the
listing filter drops it before any stage runs, every selected file comes
from that filtered listing, and the prune loop only iterates over that same
filtered listing. -/
theorem C9_dot_files_untouched :
    ∀ (listing : List String) (limit perMax : Nat) (quotas : List (String × Nat))
      (ensureToks : List String) (birdsMin : Nat) (f : String),
      (f ∈ Selector.visibleFiles listing → strHasPre "." f = false) ∧
      (f ∈ (Selector.selectorRun listing limit perMax quotas ensureToks birdsMin).selected →
        strHasPre "." f = false) ∧
      (f ∈ Selector.pruneCandidates (Selector.visibleFiles listing)
          (Selector.selectorRun listing limit perMax quotas ensureToks birdsMin).selected →
        strHasPre "." f = false) := by
  intro listing limit perMax quotas ensureToks birdsMin f
  refine ⟨fun hf => Selector.visibleFiles_no_dot listing f hf, fun hf => ?_, fun hf => ?_⟩
  · exact Selector.visibleFiles_no_dot listing f
      (Selector.selectOut_sel_sub (Selector.visibleFiles listing) limit perMax quotas
        ensureToks birdsMin f hf)
  · exact Selector.visibleFiles_no_dot listing f (List.mem_of_mem_filter hf)

/-- C9 witness: `a.jpg` is selected from a listing containing `.hidden`, and
it does not start with a dot. -/
theorem C9_witness :
    "a.jpg" ∈ (Selector.selectorRun [".hidden", "a.jpg"] 80 3 [] [] 0).selected ∧
    strHasPre "." "a.jpg" = false :=
  ⟨by decide,
   (C9_dot_files_untouched [".hidden", "a.jpg"] 80 3 [] [] 0 "a.jpg").2.1 (by decide)⟩

/-- C10: filename sanitization is idempotent, and every character of its
output lies in `[A-Za-z0-9_.-]` (hence the output contains no space). -/
theorem C10_sanitize_idempotent :
    ∀ s : String,
      Scraper.sanitize_filename (Scraper.sanitize_filename s)
        = Scraper.sanitize_filename s ∧
      ∀ c ∈ (Scraper.sanitize_filename s).toList, Scraper.keepChar c = true :=
  fun s => ⟨Scraper.sanitize_idem s, Scraper.keepChar_of_mem_sanitize s⟩

/-- C10 witness: the sanitizer evaluated at the spec's example filename. -/
theorem C10_witness :
    Scraper.sanitize_filename (Scraper.sanitize_filename "Lion (cropped).JPG")
      = Scraper.sanitize_filename "Lion (cropped).JPG" ∧
    ('L' ∈ (Scraper.sanitize_filename "Lion (cropped).JPG").toList ∧
      Scraper.keepChar 'L' = true) :=
  ⟨(C10_sanitize_idempotent "Lion (cropped).JPG").1,
   by decide,
   (C10_sanitize_idempotent "Lion (cropped).JPG").2 'L' (by decide)⟩
